import Mathlib

/-!
Verification of the n-body simulation core (`src/main.rs` of
`aziis98/rust-n-bodies`), shallowly embedded over the real numbers.

The source works with `f32`; the embedding idealises every `f32` value as a
real number and every arithmetic operation as exact real arithmetic.  The
`f32::is_normal` guard of `Particle::compute_force` is modelled by the
predicate `isNormal`, which mirrors the normal range of `f32`
(magnitude in `[2^-126, 2^128)`); over the reals the NaN/infinite cases of
the guard cannot arise, so `isNormal` keeps exactly the zero/subnormal and
overflow thresholds of the original predicate.
-/

namespace NBodies

noncomputable section
open Classical

/-- The 2D vector type of the source (`struct Vector2f { x: f32, y: f32 }`),
with `f32` idealised as `ℝ`. -/
@[ext]
structure Vector2f where
  x : ℝ
  y : ℝ


/-- `Vector2f::new()`: the zero vector. -/
def Vector2f.new : Vector2f := ⟨0, 0⟩

instance : Inhabited Vector2f := ⟨Vector2f.new⟩

/-- `Vector2f::length`: `(self.x * self.x + self.y * self.y).sqrt()`. -/
def Vector2f.length (v : Vector2f) : ℝ :=
  Real.sqrt (v.x * v.x + v.y * v.y)

/-- The `Add` impl for `&Vector2f`. -/
def Vector2f.add (a b : Vector2f) : Vector2f :=
  ⟨a.x + b.x, a.y + b.y⟩

/-- The `Sub` impl for `&Vector2f`. -/
def Vector2f.sub (a b : Vector2f) : Vector2f :=
  ⟨a.x - b.x, a.y - b.y⟩

/-- The `Mul` impl `f32 * &Vector2f`: scalar multiplication. -/
def Vector2f.smul (k : ℝ) (v : Vector2f) : Vector2f :=
  ⟨k * v.x, k * v.y⟩

/-- The particle record (`struct Particle { pos, vel, acc: Vector2f }`). -/
@[ext]
structure Particle where
  pos : Vector2f
  vel : Vector2f
  acc : Vector2f


/-- `Particle::new`: given position and velocity, acceleration starts at zero. -/
def Particle.new (pos vel : Vector2f) : Particle :=
  ⟨pos, vel, Vector2f.new⟩

instance : Inhabited Particle := ⟨Particle.new Vector2f.new Vector2f.new⟩

/-- `const WALL_BOUNCYNESS: f32 = 0.25`. -/
def WALL_BOUNCYNESS : ℝ := 0.25

/-- `const G_CONST: f32 = 10e2` (that is, `1000.0`). -/
def G_CONST : ℝ := 10e2

/-- `const PARTICLE_COUNT: u32 = 60`. -/
def PARTICLE_COUNT : ℕ := 60

/-- `const SIMULATION_ITERATIONS: u32 = 1`. -/
def SIMULATION_ITERATIONS : ℕ := 1

/-- `const SIMULATION_SPEED: f32 = 1.0`. -/
def SIMULATION_SPEED : ℝ := 1.0

/-- `const WIDTH: u32 = 1200`. -/
def WIDTH : ℕ := 1200

/-- `const HEIGHT: u32 = 900`. -/
def HEIGHT : ℕ := 900

/-- Model of `f32::is_normal` for the idealised value: the magnitude lies in
the normal range of `f32`, `2^-126 ≤ |x| < 2^128`.  (`is_normal` is false for
zero, subnormals, infinities and NaN; over `ℝ` the last two become the
overflow threshold `2^128`.) -/
def isNormal (x : ℝ) : Prop :=
  1 / 2 ^ 126 ≤ |x| ∧ |x| < 2 ^ 128

/-- `Particle::compute_force(a, b)`: the force applied to `a` by `b`.

```rust
let distance = (&b.pos - &a.pos).length().max(1.0);
let force = G_CONST / (distance * distance * distance);
if force.is_normal() { force * &(&b.pos - &a.pos) } else { Vector2f::new() }
``` -/
def Particle.compute_force (a b : Particle) : Vector2f :=
  let distance := max ((b.pos.sub a.pos).length) 1
  let force := G_CONST / (distance * distance * distance)
  if isNormal force then Vector2f.smul force (b.pos.sub a.pos)
  else Vector2f.new

/-- The acceleration-reset loop at the top of `App::update`:
`for mut p in &mut self.particles { (&mut p.acc).reset(); }`. -/
def resetAcc (ps : List Particle) : List Particle :=
  ps.map fun p => { p with acc := Vector2f.new }

/-- The index pairs enumerated by the force loops of `App::update`
(`for i in 0 .. count { for j in 0 .. (i + 1) { ... } }`), in iteration
order. -/
def pairList : ℕ → List (ℕ × ℕ)
  | 0 => []
  | n + 1 => pairList n ++ (List.range (n + 1)).map fun j => (n, j)

/-- The body of the force loop for one index pair `(i, j)`:

```rust
let acc = Particle::compute_force(&particles[i], &particles[j]);
particles[i].acc = &particles[i].acc + &acc;
particles[j].acc = &particles[j].acc - &acc;
``` -/
def applyPair (ps : List Particle) (ij : ℕ × ℕ) : List Particle :=
  let a := Particle.compute_force (ps.getD ij.1 default) (ps.getD ij.2 default)
  let ps1 := ps.modify (fun p => { p with acc := p.acc.add a }) ij.1
  ps1.modify (fun p => { p with acc := p.acc.sub a }) ij.2

/-- The force-accumulation phase of one simulation iteration: reset all
accelerations, then run the symmetric pair loop. -/
def accumulate (ps : List Particle) : List Particle :=
  (pairList ps.length).foldl applyPair (resetAcc ps)

/-- The semi-implicit Euler integration step of `App::update` for one
particle:

```rust
p.vel = &p.vel + &(comb_dt * &p.acc);
p.pos = &p.pos + &(comb_dt * &p.vel);
``` -/
def Particle.integrate (comb_dt : ℝ) (p : Particle) : Particle :=
  let vel := p.vel.add (Vector2f.smul comb_dt p.acc)
  let pos := p.pos.add (Vector2f.smul comb_dt vel)
  { p with vel := vel, pos := pos }

/-- The four sequential wall checks of `App::update`:

```rust
if p.pos.x < 0.0 { p.pos.x = 0.0; p.vel.x *= -WALL_BOUNCYNESS; }
if p.pos.x > WIDTH as f32 { p.pos.x = WIDTH as f32; p.vel.x *= -WALL_BOUNCYNESS; }
if p.pos.y < 0.0 { p.pos.y = 0.0; p.vel.y *= -WALL_BOUNCYNESS; }
if p.pos.y > HEIGHT as f32 { p.pos.y = HEIGHT as f32; p.vel.y *= -WALL_BOUNCYNESS; }
``` -/
def Particle.walls (p0 : Particle) : Particle :=
  let p1 := if p0.pos.x < 0 then
    { p0 with pos := { p0.pos with x := 0 },
              vel := { p0.vel with x := p0.vel.x * -WALL_BOUNCYNESS } } else p0
  let p2 := if p1.pos.x > (WIDTH : ℝ) then
    { p1 with pos := { p1.pos with x := (WIDTH : ℝ) },
              vel := { p1.vel with x := p1.vel.x * -WALL_BOUNCYNESS } } else p1
  let p3 := if p2.pos.y < 0 then
    { p2 with pos := { p2.pos with y := 0 },
              vel := { p2.vel with y := p2.vel.y * -WALL_BOUNCYNESS } } else p2
  if p3.pos.y > (HEIGHT : ℝ) then
    { p3 with pos := { p3.pos with y := (HEIGHT : ℝ) },
              vel := { p3.vel with y := p3.vel.y * -WALL_BOUNCYNESS } } else p3

/-- The effective sub-step time of `App::update`:
`args.dt as f32 * SIMULATION_SPEED / SIMULATION_ITERATIONS as f32`. -/
def combDt (dt : ℝ) : ℝ :=
  dt * SIMULATION_SPEED / (SIMULATION_ITERATIONS : ℝ)

/-- One iteration of the outer `for _ in 0 .. SIMULATION_ITERATIONS` loop of
`App::update`: force accumulation, then integration and wall handling for
every particle. -/
def substep (dt : ℝ) (ps : List Particle) : List Particle :=
  (accumulate ps).map fun p => (p.integrate (combDt dt)).walls

/-- `App::update` itself: the sub-step repeated `SIMULATION_ITERATIONS`
times. -/
def update (dt : ℝ) (ps : List Particle) : List Particle :=
  (substep dt)^[SIMULATION_ITERATIONS] ps

/-- A Rust half-open range `a .. b` over naturals, as the list it iterates. -/
def rustRange (a b : ℕ) : List ℕ :=
  (List.range (b - a)).map fun k => a + k

/-- The particle construction in `main`:
`(1 .. PARTICLE_COUNT).map(|_i| Particle::new(..)).collect()`, with the
random draws abstracted as a function from the loop index to the generated
particle. -/
def mainParticles (gen : ℕ → Particle) : List Particle :=
  (rustRange 1 PARTICLE_COUNT).map gen

/-- The in-domain predicate on a particle's position:
`[0, WIDTH] × [0, HEIGHT]`. -/
def inBounds (p : Particle) : Prop :=
  0 ≤ p.pos.x ∧ p.pos.x ≤ (WIDTH : ℝ) ∧ 0 ≤ p.pos.y ∧ p.pos.y ≤ (HEIGHT : ℝ)

/-- Wall handling of a single axis, used to state that `Particle.walls`
treats the two axes independently: given the coordinate, the velocity
component and the upper bound of one axis, it returns the corrected
coordinate and velocity component (lower-wall check first, then the
upper-wall check on the possibly clamped coordinate, as in the source). -/
def bounceAxis (pos vel bound : ℝ) : ℝ × ℝ :=
  let pv := if pos < 0 then (0, vel * -WALL_BOUNCYNESS) else (pos, vel)
  if pv.1 > bound then (bound, pv.2 * -WALL_BOUNCYNESS) else pv

/-- A probe particle at the origin with zero velocity. -/
def probeA : Particle := Particle.new ⟨0, 0⟩ ⟨0, 0⟩

/-- A probe particle at `(100, 0)` with zero velocity. -/
def probeB : Particle := Particle.new ⟨100, 0⟩ ⟨0, 0⟩

/-! ### Basic evaluation lemmas -/

theorem G_CONST_eq : G_CONST = 1000 := by norm_num [G_CONST]

theorem WALL_BOUNCYNESS_eq : WALL_BOUNCYNESS = 1 / 4 := by norm_num [WALL_BOUNCYNESS]

theorem SIMULATION_SPEED_eq : SIMULATION_SPEED = 1 := by norm_num [SIMULATION_SPEED]

theorem combDt_eq (dt : ℝ) : combDt dt = dt := by
  simp [combDt, SIMULATION_SPEED_eq, SIMULATION_ITERATIONS]

@[simp]
theorem new_x : Vector2f.new.x = 0 := rfl

@[simp]
theorem new_y : Vector2f.new.y = 0 := rfl

@[simp]
theorem add_x (a b : Vector2f) : (a.add b).x = a.x + b.x := rfl

@[simp]
theorem add_y (a b : Vector2f) : (a.add b).y = a.y + b.y := rfl

@[simp]
theorem sub_x (a b : Vector2f) : (a.sub b).x = a.x - b.x := rfl

@[simp]
theorem sub_y (a b : Vector2f) : (a.sub b).y = a.y - b.y := rfl

@[simp]
theorem smul_x (k : ℝ) (v : Vector2f) : (Vector2f.smul k v).x = k * v.x := rfl

@[simp]
theorem smul_y (k : ℝ) (v : Vector2f) : (Vector2f.smul k v).y = k * v.y := rfl

theorem length_mk (x y : ℝ) :
    (Vector2f.mk x y).length = Real.sqrt (x * x + y * y) := rfl

theorem length_smul (k : ℝ) (v : Vector2f) :
    (Vector2f.smul k v).length = |k| * v.length := by
  unfold Vector2f.length Vector2f.smul
  have h : k * v.x * (k * v.x) + k * v.y * (k * v.y)
      = (k * k) * (v.x * v.x + v.y * v.y) := by ring
  rw [h, Real.sqrt_mul (mul_self_nonneg k), Real.sqrt_mul_self_eq_abs]

theorem length_sub_comm (a b : Vector2f) :
    (a.sub b).length = (b.sub a).length := by
  unfold Vector2f.length Vector2f.sub
  congr 1
  ring

theorem isNormal_thousand : isNormal 1000 := by
  constructor <;> rw [abs_of_pos (by norm_num : (0:ℝ) < 1000)] <;> norm_num

/-! ### Structure of `compute_force` -/

theorem compute_force_unfold (a b : Particle) :
    Particle.compute_force a b =
      if isNormal (G_CONST / (max ((b.pos.sub a.pos).length) 1 *
          max ((b.pos.sub a.pos).length) 1 * max ((b.pos.sub a.pos).length) 1))
      then Vector2f.smul (G_CONST / (max ((b.pos.sub a.pos).length) 1 *
          max ((b.pos.sub a.pos).length) 1 * max ((b.pos.sub a.pos).length) 1))
          (b.pos.sub a.pos)
      else Vector2f.new := rfl

theorem dist_floor_same_pos (a b : Particle) (h : a.pos = b.pos) :
    max ((b.pos.sub a.pos).length) 1 = (1 : ℝ) := by
  have hsub : b.pos.sub a.pos = Vector2f.mk 0 0 := by
    rw [h]; unfold Vector2f.sub; ext <;> simp
  have hlen : (b.pos.sub a.pos).length = 0 := by
    rw [hsub, length_mk]; simp
  rw [hlen]
  exact max_eq_right (by norm_num)

theorem compute_force_same_pos (a b : Particle) (h : a.pos = b.pos) :
    Particle.compute_force a b = Vector2f.new := by
  have hsub : b.pos.sub a.pos = Vector2f.mk 0 0 := by
    rw [h]; unfold Vector2f.sub; ext <;> simp
  rw [compute_force_unfold, dist_floor_same_pos a b h]
  have hforce : G_CONST / ((1 : ℝ) * 1 * 1) = 1000 := by
    rw [G_CONST_eq]; norm_num
  rw [hforce, if_pos isNormal_thousand, hsub]
  unfold Vector2f.smul Vector2f.new
  ext <;> simp

theorem compute_force_structure (a b : Particle) :
    (∃ m : ℝ, isNormal m ∧ 0 < m ∧ m ≤ 1000 ∧
      Particle.compute_force a b = Vector2f.smul m (b.pos.sub a.pos)) ∨
    Particle.compute_force a b = Vector2f.new := by
  set d := max ((b.pos.sub a.pos).length) 1 with hd
  have hd1 : (1 : ℝ) ≤ d := le_max_right _ _
  have hd0 : (0 : ℝ) < d := lt_of_lt_of_le one_pos hd1
  have hcube : (1 : ℝ) ≤ d * d * d := by nlinarith
  have hm0 : 0 < G_CONST / (d * d * d) := by
    apply div_pos _ (lt_of_lt_of_le one_pos hcube)
    rw [G_CONST_eq]; norm_num
  have hmle : G_CONST / (d * d * d) ≤ 1000 := by
    rw [G_CONST_eq]
    calc (1000 : ℝ) / (d * d * d) ≤ 1000 / 1 := by
          apply div_le_div_of_nonneg_left (by norm_num) one_pos hcube
      _ = 1000 := by norm_num
  rw [compute_force_unfold, ← hd]
  by_cases hn : isNormal (G_CONST / (d * d * d))
  · left
    exact ⟨G_CONST / (d * d * d), hn, hm0, hmle, by rw [if_pos hn]⟩
  · right
    rw [if_neg hn]

theorem compute_force_bound (a b : Particle)
    (ha : inBounds a) (hb : inBounds b) :
    |(Particle.compute_force a b).x| ≤ 1000 * 1200 ∧
    |(Particle.compute_force a b).y| ≤ 1000 * 900 := by
  obtain ⟨ax1, ax2, ay1, ay2⟩ := ha
  obtain ⟨bx1, bx2, by1, by2⟩ := hb
  have hW : (WIDTH : ℝ) = 1200 := by norm_num [WIDTH]
  have hH : (HEIGHT : ℝ) = 900 := by norm_num [HEIGHT]
  rw [hW] at ax2 bx2
  rw [hH] at ay2 by2
  have h2 : ∀ m : ℝ, 0 < m → m ≤ 1000 → |m| ≤ 1000 := by
    intro m hm0 hmle
    rw [abs_of_pos hm0]; exact hmle
  rcases compute_force_structure a b with ⟨m, _, hm0, hmle, heq⟩ | heq
  · rw [heq]
    simp only [smul_x, smul_y, sub_x, sub_y, abs_mul]
    constructor
    · have h1 : |b.pos.x - a.pos.x| ≤ 1200 := by
        rw [abs_le]; constructor <;> linarith
      exact mul_le_mul (h2 m hm0 hmle) h1 (abs_nonneg _) (by norm_num)
    · have h1 : |b.pos.y - a.pos.y| ≤ 900 := by
        rw [abs_le]; constructor <;> linarith
      exact mul_le_mul (h2 m hm0 hmle) h1 (abs_nonneg _) (by norm_num)
  · rw [heq]
    simp only [new_x, new_y, abs_zero]
    norm_num

theorem length_100_0 : (Vector2f.mk (100 : ℝ) 0).length = 100 := by
  rw [length_mk]
  have h : (100 : ℝ) * 100 + 0 * 0 = 100 ^ 2 := by norm_num
  rw [h, Real.sqrt_sq (by norm_num : (0 : ℝ) ≤ 100)]

theorem length_neg100_0 : (Vector2f.mk (-100 : ℝ) 0).length = 100 := by
  rw [length_mk]
  have h : (-100 : ℝ) * -100 + 0 * 0 = 100 ^ 2 := by norm_num
  rw [h, Real.sqrt_sq (by norm_num : (0 : ℝ) ≤ 100)]

theorem isNormal_milli : isNormal (1 / 1000 : ℝ) := by
  constructor <;> rw [abs_of_pos (by norm_num : (0 : ℝ) < 1 / 1000)] <;> norm_num

theorem sub_probeAB : probeB.pos.sub probeA.pos = Vector2f.mk 100 0 := by
  unfold probeB probeA Particle.new Vector2f.sub
  ext <;> norm_num

theorem len_probeAB : (probeB.pos.sub probeA.pos).length = 100 := by
  rw [sub_probeAB, length_100_0]

theorem compute_force_of_one_le (a b : Particle)
    (hd : 1 ≤ (b.pos.sub a.pos).length)
    (hn : isNormal (G_CONST / ((b.pos.sub a.pos).length *
      (b.pos.sub a.pos).length * (b.pos.sub a.pos).length))) :
    Particle.compute_force a b
      = Vector2f.smul (G_CONST / ((b.pos.sub a.pos).length *
          (b.pos.sub a.pos).length * (b.pos.sub a.pos).length))
          (b.pos.sub a.pos) := by
  rw [compute_force_unfold, max_eq_left hd, if_pos hn]

theorem compute_force_probeAB :
    Particle.compute_force probeA probeB
      = Vector2f.smul (1 / 1000) (Vector2f.mk 100 0) := by
  rw [compute_force_unfold, sub_probeAB, length_100_0,
    max_eq_left (by norm_num : (1 : ℝ) ≤ 100)]
  have hforce : G_CONST / ((100 : ℝ) * 100 * 100) = 1 / 1000 := by
    rw [G_CONST_eq]; norm_num
  rw [hforce, if_pos isNormal_milli]

theorem compute_force_probeBA :
    Particle.compute_force probeB probeA
      = Vector2f.smul (1 / 1000) (Vector2f.mk (-100) 0) := by
  have hsub : probeA.pos.sub probeB.pos = Vector2f.mk (-100) 0 := by
    unfold probeB probeA Particle.new Vector2f.sub
    ext <;> norm_num
  rw [compute_force_unfold, hsub, length_neg100_0,
    max_eq_left (by norm_num : (1 : ℝ) ≤ 100)]
  have hforce : G_CONST / ((100 : ℝ) * 100 * 100) = 1 / 1000 := by
    rw [G_CONST_eq]; norm_num
  rw [hforce, if_pos isNormal_milli]

/-! ### Wall handling -/

theorem not_zero_gt_width : ¬ ((0 : ℝ) > (WIDTH : ℝ)) := by norm_num [WIDTH]

theorem not_zero_gt_height : ¬ ((0 : ℝ) > (HEIGHT : ℝ)) := by norm_num [HEIGHT]

theorem walls_eq_axes (p : Particle) :
    p.walls = { pos := Vector2f.mk (bounceAxis p.pos.x p.vel.x (WIDTH : ℝ)).1
                         (bounceAxis p.pos.y p.vel.y (HEIGHT : ℝ)).1,
                vel := Vector2f.mk (bounceAxis p.pos.x p.vel.x (WIDTH : ℝ)).2
                         (bounceAxis p.pos.y p.vel.y (HEIGHT : ℝ)).2,
                acc := p.acc } := by
  simp only [Particle.walls, bounceAxis]
  by_cases h1 : p.pos.x < 0 <;> simp only [h1, ite_true, ite_false]
  · simp only [not_zero_gt_width, ite_false]
    by_cases h3 : p.pos.y < 0 <;> simp only [h3, ite_true, ite_false]
    · simp only [not_zero_gt_height, ite_false]
    · by_cases h4 : p.pos.y > (HEIGHT : ℝ) <;> simp only [h4, ite_true, ite_false]
  · by_cases h2 : p.pos.x > (WIDTH : ℝ) <;> simp only [h2, ite_true, ite_false]
    · by_cases h3 : p.pos.y < 0 <;> simp only [h3, ite_true, ite_false]
      · simp only [not_zero_gt_height, ite_false]
      · by_cases h4 : p.pos.y > (HEIGHT : ℝ) <;> simp only [h4, ite_true, ite_false]
    · by_cases h3 : p.pos.y < 0 <;> simp only [h3, ite_true, ite_false]
      · simp only [not_zero_gt_height, ite_false]
      · by_cases h4 : p.pos.y > (HEIGHT : ℝ) <;> simp only [h4, ite_true, ite_false]

theorem bounceAxis_low (pos vel bound : ℝ) (hb : 0 ≤ bound) (h : pos < 0) :
    bounceAxis pos vel bound = (0, vel * -WALL_BOUNCYNESS) := by
  unfold bounceAxis
  simp only [h, ite_true]
  rw [if_neg (by simpa using not_lt.2 hb)]

theorem bounceAxis_high (pos vel bound : ℝ) (hb : 0 ≤ bound) (h : pos > bound) :
    bounceAxis pos vel bound = (bound, vel * -WALL_BOUNCYNESS) := by
  unfold bounceAxis
  rw [if_neg (not_lt.2 (le_trans hb (le_of_lt h)))]
  simp only [h, ite_true]

theorem bounceAxis_id (pos vel bound : ℝ) (h0 : 0 ≤ pos) (h1 : pos ≤ bound) :
    bounceAxis pos vel bound = (pos, vel) := by
  unfold bounceAxis
  rw [if_neg (not_lt.2 h0)]
  simp only []
  rw [if_neg (not_lt.2 h1)]

theorem bounceAxis_bounds (pos vel bound : ℝ) (hb : 0 ≤ bound) :
    0 ≤ (bounceAxis pos vel bound).1 ∧ (bounceAxis pos vel bound).1 ≤ bound := by
  unfold bounceAxis
  by_cases h1 : pos < 0 <;> simp only [h1, ite_true, ite_false]
  · by_cases h2 : (0 : ℝ) > bound <;> simp only [h2, ite_true, ite_false]
    · exact ⟨hb, le_refl bound⟩
    · exact ⟨le_refl 0, hb⟩
  · push_neg at h1
    by_cases h2 : pos > bound <;> simp only [h2, ite_true, ite_false]
    · exact ⟨hb, le_refl bound⟩
    · exact ⟨h1, not_lt.1 h2⟩

theorem walls_inBounds (p : Particle) : inBounds p.walls := by
  rw [walls_eq_axes]
  have hx := bounceAxis_bounds p.pos.x p.vel.x (WIDTH : ℝ) (by norm_num [WIDTH])
  have hy := bounceAxis_bounds p.pos.y p.vel.y (HEIGHT : ℝ) (by norm_num [HEIGHT])
  exact ⟨hx.1, hx.2, hy.1, hy.2⟩

theorem walls_id (p : Particle) (hx0 : 0 ≤ p.pos.x) (hx1 : p.pos.x ≤ (WIDTH : ℝ))
    (hy0 : 0 ≤ p.pos.y) (hy1 : p.pos.y ≤ (HEIGHT : ℝ)) : p.walls = p := by
  rw [walls_eq_axes, bounceAxis_id p.pos.x p.vel.x (WIDTH : ℝ) hx0 hx1,
    bounceAxis_id p.pos.y p.vel.y (HEIGHT : ℝ) hy0 hy1]

/-! ### The accumulation phase only touches accelerations -/

theorem map_eq_self_of_forall {α : Type} (f : α → α) (l : List α)
    (h : ∀ x ∈ l, f x = x) : l.map f = l := by
  induction l with
  | nil => rfl
  | cons a t ih => simp [h a (by simp), ih fun x hx => h x (by simp [hx])]

theorem map_modify {α : Type} (f : Particle → α) (g : Particle → Particle)
    (hg : ∀ p, f (g p) = f p) (ps : List Particle) (i : ℕ) :
    (ps.modify g i).map f = ps.map f := by
  induction ps generalizing i with
  | nil => rw [List.modify_nil]
  | cons p t ih =>
    cases i with
    | zero => simp [List.modify, hg]
    | succ i => simpa [List.modify] using ih i

theorem applyPair_map_pos (ps : List Particle) (ij : ℕ × ℕ) :
    (applyPair ps ij).map Particle.pos = ps.map Particle.pos := by
  simp only [applyPair]
  refine (map_modify Particle.pos _ ?_ _ ij.2).trans
    (map_modify Particle.pos _ ?_ ps ij.1) <;> intro p <;> rfl

theorem applyPair_map_vel (ps : List Particle) (ij : ℕ × ℕ) :
    (applyPair ps ij).map Particle.vel = ps.map Particle.vel := by
  simp only [applyPair]
  refine (map_modify Particle.vel _ ?_ _ ij.2).trans
    (map_modify Particle.vel _ ?_ ps ij.1) <;> intro p <;> rfl

theorem foldl_applyPair_map_pos (L : List (ℕ × ℕ)) (ps : List Particle) :
    (L.foldl applyPair ps).map Particle.pos = ps.map Particle.pos := by
  induction L generalizing ps with
  | nil => rfl
  | cons ij t ih => rw [List.foldl_cons, ih, applyPair_map_pos]

theorem foldl_applyPair_map_vel (L : List (ℕ × ℕ)) (ps : List Particle) :
    (L.foldl applyPair ps).map Particle.vel = ps.map Particle.vel := by
  induction L generalizing ps with
  | nil => rfl
  | cons ij t ih => rw [List.foldl_cons, ih, applyPair_map_vel]

theorem accumulate_map_pos (ps : List Particle) :
    (accumulate ps).map Particle.pos = ps.map Particle.pos := by
  unfold accumulate resetAcc
  rw [foldl_applyPair_map_pos, List.map_map]
  rfl

theorem accumulate_map_vel (ps : List Particle) :
    (accumulate ps).map Particle.vel = ps.map Particle.vel := by
  unfold accumulate resetAcc
  rw [foldl_applyPair_map_vel, List.map_map]
  rfl

theorem mem_accumulate_pos (ps : List Particle) (q : Particle)
    (hq : q ∈ accumulate ps) : ∃ p ∈ ps, q.pos = p.pos := by
  have h1 : q.pos ∈ (accumulate ps).map Particle.pos := List.mem_map_of_mem _ hq
  rw [accumulate_map_pos] at h1
  obtain ⟨p, hp, he⟩ := List.mem_map.1 h1
  exact ⟨p, hp, he.symm⟩

theorem integrate_zero (p : Particle) : p.integrate 0 = p := by
  unfold Particle.integrate
  ext <;> simp

theorem update_eq_substep (dt : ℝ) (ps : List Particle) :
    update dt ps = substep dt ps := by
  unfold update SIMULATION_ITERATIONS
  rw [Function.iterate_one]

/-! ### Zero forces leave the pair loop inert -/

theorem add_new (v : Vector2f) : v.add Vector2f.new = v := by
  ext <;> simp

theorem sub_new (v : Vector2f) : v.sub Vector2f.new = v := by
  ext <;> simp

theorem particle_add_new (p : Particle) :
    ({ p with acc := p.acc.add Vector2f.new } : Particle) = p := by
  ext <;> simp

theorem particle_sub_new (p : Particle) :
    ({ p with acc := p.acc.sub Vector2f.new } : Particle) = p := by
  ext <;> simp

theorem modify_eq_self {α : Type} (g : α → α) (hg : ∀ a, g a = a)
    (l : List α) (i : ℕ) : l.modify g i = l := by
  induction l generalizing i with
  | nil => rw [List.modify_nil]
  | cons a t ih =>
    cases i with
    | zero => simp [List.modify, hg]
    | succ i => simpa [List.modify] using ih i

theorem applyPair_zero_force (ps : List Particle) (ij : ℕ × ℕ)
    (h : Particle.compute_force (ps.getD ij.1 default) (ps.getD ij.2 default)
      = Vector2f.new) :
    applyPair ps ij = ps := by
  simp only [applyPair, h]
  rw [modify_eq_self _ particle_add_new, modify_eq_self _ particle_sub_new]

/-! ### Behaviour of the wall response -/

theorem walls_low_x (q : Particle) (h : q.pos.x < 0) :
    q.walls.pos.x = 0 ∧ q.walls.vel.x = -WALL_BOUNCYNESS * q.vel.x := by
  rw [walls_eq_axes, bounceAxis_low _ _ _ (by norm_num [WIDTH]) h]
  exact ⟨rfl, mul_comm _ _⟩

theorem walls_high_x (q : Particle) (h : q.pos.x > (WIDTH : ℝ)) :
    q.walls.pos.x = (WIDTH : ℝ) ∧ q.walls.vel.x = -WALL_BOUNCYNESS * q.vel.x := by
  rw [walls_eq_axes, bounceAxis_high _ _ _ (by norm_num [WIDTH]) h]
  exact ⟨rfl, mul_comm _ _⟩

theorem walls_low_y (q : Particle) (h : q.pos.y < 0) :
    q.walls.pos.y = 0 ∧ q.walls.vel.y = -WALL_BOUNCYNESS * q.vel.y := by
  rw [walls_eq_axes, bounceAxis_low _ _ _ (by norm_num [HEIGHT]) h]
  exact ⟨rfl, mul_comm _ _⟩

theorem walls_high_y (q : Particle) (h : q.pos.y > (HEIGHT : ℝ)) :
    q.walls.pos.y = (HEIGHT : ℝ) ∧ q.walls.vel.y = -WALL_BOUNCYNESS * q.vel.y := by
  rw [walls_eq_axes, bounceAxis_high _ _ _ (by norm_num [HEIGHT]) h]
  exact ⟨rfl, mul_comm _ _⟩

/-! ### Bounding accumulated accelerations -/

theorem inBounds_default : inBounds (default : Particle) := by
  refine ⟨le_refl 0, by norm_num [default, Particle.new, WIDTH],
    le_refl 0, by norm_num [default, Particle.new, HEIGHT]⟩

theorem getD_inBounds (ps : List Particle) (hin : ∀ p ∈ ps, inBounds p)
    (i : ℕ) : inBounds (ps.getD i default) := by
  induction ps generalizing i with
  | nil => exact inBounds_default
  | cons p t ih =>
    cases i with
    | zero => exact hin p (by simp)
    | succ i =>
      exact ih (fun q hq => hin q (by simp [hq])) i

theorem mem_modify_cases {α : Type} (g : α → α) (l : List α) (i : ℕ) :
    ∀ p ∈ l.modify g i, p ∈ l ∨ ∃ q ∈ l, p = g q := by
  induction l generalizing i with
  | nil => intro p hp; rw [List.modify_nil] at hp; simp at hp
  | cons a t ih =>
    cases i with
    | zero =>
      intro p hp
      rcases List.mem_cons.1 hp with h | h
      · exact Or.inr ⟨a, by simp, h⟩
      · exact Or.inl (List.mem_cons_of_mem a h)
    | succ i =>
      intro p hp
      rcases List.mem_cons.1 hp with h | h
      · exact Or.inl (by simp [h])
      · rcases ih i p h with h1 | ⟨q, hq, he⟩
        · exact Or.inl (List.mem_cons_of_mem a h1)
        · exact Or.inr ⟨q, List.mem_cons_of_mem a hq, he⟩

theorem abs_add_le_of_le {a b D E : ℝ} (ha : |a| ≤ D) (hb : |b| ≤ E) :
    |a + b| ≤ D + E := (abs_add a b).trans (add_le_add ha hb)

theorem abs_sub_le_of_le {a b D E : ℝ} (ha : |a| ≤ D) (hb : |b| ≤ E) :
    |a - b| ≤ D + E := by
  rw [sub_eq_add_neg]
  exact (abs_add a (-b)).trans (add_le_add ha (by rwa [abs_neg]))

theorem applyPair_inBounds (ps : List Particle) (ij : ℕ × ℕ)
    (hin : ∀ p ∈ ps, inBounds p) : ∀ p ∈ applyPair ps ij, inBounds p := by
  intro p hp
  simp only [applyPair] at hp
  rcases mem_modify_cases _ _ _ p hp with h1 | ⟨q, hq, he⟩
  · rcases mem_modify_cases _ _ _ p h1 with h2 | ⟨q, hq, he⟩
    · exact hin p h2
    · rw [he]; exact hin q hq
  · rcases mem_modify_cases _ _ _ q hq with h2 | ⟨r, hr, he2⟩
    · rw [he]; exact hin q h2
    · rw [he, he2]; exact hin r hr

theorem applyPair_acc_bound (ps : List Particle) (ij : ℕ × ℕ) (Cx Cy : ℝ)
    (hin : ∀ p ∈ ps, inBounds p)
    (hacc : ∀ p ∈ ps, |p.acc.x| ≤ Cx ∧ |p.acc.y| ≤ Cy) :
    ∀ p ∈ applyPair ps ij,
      |p.acc.x| ≤ Cx + 2 * (1000 * 1200) ∧
      |p.acc.y| ≤ Cy + 2 * (1000 * 900) := by
  have hFb := compute_force_bound (ps.getD ij.1 default) (ps.getD ij.2 default)
    (getD_inBounds ps hin ij.1) (getD_inBounds ps hin ij.2)
  intro p hp
  simp only [applyPair] at hp
  rcases mem_modify_cases _ _ _ p hp with h1 | ⟨q, hq, he⟩
  · rcases mem_modify_cases _ _ _ p h1 with h2 | ⟨q, hq, he⟩
    · obtain ⟨ha1, ha2⟩ := hacc p h2
      constructor <;> [linarith; linarith]
    · obtain ⟨ha1, ha2⟩ := hacc q hq
      rw [he]
      simp only [add_x, add_y]
      constructor
      · have := abs_add_le_of_le ha1 hFb.1
        linarith
      · have := abs_add_le_of_le ha2 hFb.2
        linarith
  · rcases mem_modify_cases _ _ _ q hq with h2 | ⟨r, hr, he2⟩
    · obtain ⟨ha1, ha2⟩ := hacc q h2
      rw [he]
      simp only [sub_x, sub_y]
      constructor
      · have := abs_sub_le_of_le ha1 hFb.1
        linarith
      · have := abs_sub_le_of_le ha2 hFb.2
        linarith
    · obtain ⟨ha1, ha2⟩ := hacc r hr
      rw [he, he2]
      simp only [add_x, add_y, sub_x, sub_y]
      constructor
      · have h3 := abs_add_le_of_le ha1 hFb.1
        have := abs_sub_le_of_le h3 hFb.1
        linarith
      · have h3 := abs_add_le_of_le ha2 hFb.2
        have := abs_sub_le_of_le h3 hFb.2
        linarith

theorem foldl_acc_bound (L : List (ℕ × ℕ)) (ps : List Particle) (Cx Cy : ℝ)
    (hin : ∀ p ∈ ps, inBounds p)
    (hacc : ∀ p ∈ ps, |p.acc.x| ≤ Cx ∧ |p.acc.y| ≤ Cy) :
    ∀ p ∈ L.foldl applyPair ps,
      |p.acc.x| ≤ Cx + 2 * L.length * (1000 * 1200) ∧
      |p.acc.y| ≤ Cy + 2 * L.length * (1000 * 900) := by
  induction L generalizing ps Cx Cy with
  | nil => simpa using hacc
  | cons ij t ih =>
    rw [List.foldl_cons]
    intro p hp
    have hnext := ih (applyPair ps ij) (Cx + 2 * (1000 * 1200))
      (Cy + 2 * (1000 * 900)) (applyPair_inBounds ps ij hin)
      (applyPair_acc_bound ps ij Cx Cy hin hacc) p hp
    obtain ⟨h1, h2⟩ := hnext
    constructor
    · calc |p.acc.x| ≤ Cx + 2 * (1000 * 1200) + 2 * t.length * (1000 * 1200) := h1
        _ = Cx + 2 * (t.length + 1) * (1000 * 1200) := by ring
        _ = Cx + 2 * (ij :: t).length * (1000 * 1200) := by
            rw [List.length_cons]; push_cast; ring
    · calc |p.acc.y| ≤ Cy + 2 * (1000 * 900) + 2 * t.length * (1000 * 900) := h2
        _ = Cy + 2 * (t.length + 1) * (1000 * 900) := by ring
        _ = Cy + 2 * (ij :: t).length * (1000 * 900) := by
            rw [List.length_cons]; push_cast; ring

theorem pairList_length_two (n : ℕ) : 2 * (pairList n).length = n * (n + 1) := by
  induction n with
  | zero => rfl
  | succ n ih =>
    show 2 * (pairList n ++ (List.range (n + 1)).map fun j => (n, j)).length
      = (n + 1) * (n + 2)
    rw [List.length_append, List.length_map, List.length_range, Nat.mul_add, ih]
    ring

theorem resetAcc_inBounds (ps : List Particle) (hin : ∀ p ∈ ps, inBounds p) :
    ∀ p ∈ resetAcc ps, inBounds p := by
  intro p hp
  obtain ⟨q, hq, he⟩ := List.mem_map.1 hp
  rw [← he]
  exact hin q hq

theorem resetAcc_acc_zero (ps : List Particle) :
    ∀ p ∈ resetAcc ps, |p.acc.x| ≤ (0 : ℝ) ∧ |p.acc.y| ≤ (0 : ℝ) := by
  intro p hp
  obtain ⟨q, _, he⟩ := List.mem_map.1 hp
  rw [← he]
  simp

/-! ### Concrete evaluation of the two-body scenario -/

theorem accumulate_probe :
    accumulate [probeA, probeB]
      = [{ probeA with acc := Vector2f.mk (1 / 10) 0 },
         { probeB with acc := Vector2f.mk (-(1 / 10)) 0 }] := by
  unfold accumulate
  have hreset : resetAcc [probeA, probeB] = [probeA, probeB] := rfl
  rw [hreset]
  show List.foldl applyPair [probeA, probeB] [(0, 0), (1, 0), (1, 1)] = _
  rw [List.foldl_cons, applyPair_zero_force _ _ (compute_force_same_pos _ _ rfl)]
  have hFA : Vector2f.new.sub (Vector2f.smul (1 / 1000) (Vector2f.mk (-100) 0))
      = Vector2f.mk (1 / 10) 0 := by
    ext <;> simp <;> norm_num
  have hFB : Vector2f.new.add (Vector2f.smul (1 / 1000) (Vector2f.mk (-100) 0))
      = Vector2f.mk (-(1 / 10)) 0 := by
    ext <;> simp <;> norm_num
  have hm1 : ∀ (g : Particle → Particle) (a b : Particle),
      List.modify g 1 [a, b] = [a, g b] := fun _ _ _ => rfl
  have hm0 : ∀ (g : Particle → Particle) (a b : Particle),
      List.modify g 0 [a, b] = [g a, b] := fun _ _ _ => rfl
  have happ : applyPair [probeA, probeB] (1, 0)
      = [{ probeA with acc := Vector2f.mk (1 / 10) 0 },
         { probeB with acc := Vector2f.mk (-(1 / 10)) 0 }] := by
    simp only [applyPair]
    have hg1 : ([probeA, probeB] : List Particle).getD 1 default = probeB := rfl
    have hg0 : ([probeA, probeB] : List Particle).getD 0 default = probeA := rfl
    rw [hg1, hg0, compute_force_probeBA, hm1, hm0]
    simp only [List.cons.injEq, and_true]
    constructor
    · refine Particle.ext rfl rfl ?_
      show probeA.acc.sub (Vector2f.smul (1 / 1000) (Vector2f.mk (-100) 0))
        = Vector2f.mk (1 / 10) 0
      have haccA : probeA.acc = Vector2f.new := rfl
      rw [haccA, hFA]
    · refine Particle.ext rfl rfl ?_
      show probeB.acc.add (Vector2f.smul (1 / 1000) (Vector2f.mk (-100) 0))
        = Vector2f.mk (-(1 / 10)) 0
      have haccB : probeB.acc = Vector2f.new := rfl
      rw [haccB, hFB]
  rw [List.foldl_cons, happ, List.foldl_cons,
    applyPair_zero_force _ _ (compute_force_same_pos _ _ rfl), List.foldl_nil]

theorem update_probe :
    update 1 [probeA, probeB]
      = [⟨⟨1 / 10, 0⟩, ⟨1 / 10, 0⟩, ⟨1 / 10, 0⟩⟩,
         ⟨⟨999 / 10, 0⟩, ⟨-(1 / 10), 0⟩, ⟨-(1 / 10), 0⟩⟩] := by
  rw [update_eq_substep]
  unfold substep
  rw [accumulate_probe, combDt_eq, List.map_cons, List.map_cons, List.map_nil]
  have hiA : Particle.integrate 1 { probeA with acc := Vector2f.mk (1 / 10) 0 }
      = ⟨⟨1 / 10, 0⟩, ⟨1 / 10, 0⟩, ⟨1 / 10, 0⟩⟩ := by
    unfold Particle.integrate probeA Particle.new
    ext <;> simp
  have hiB : Particle.integrate 1 { probeB with acc := Vector2f.mk (-(1 / 10)) 0 }
      = ⟨⟨999 / 10, 0⟩, ⟨-(1 / 10), 0⟩, ⟨-(1 / 10), 0⟩⟩ := by
    unfold Particle.integrate probeB Particle.new
    ext <;> simp <;> norm_num
  rw [hiA, hiB,
    walls_id _ (by norm_num) (by norm_num [WIDTH]) (by norm_num) (by norm_num [HEIGHT]),
    walls_id _ (by norm_num) (by norm_num [WIDTH]) (by norm_num) (by norm_num [HEIGHT])]

/-! ### Claim theorems -/

/-- C5: for every pair of particles `a` and `b`, `compute_force(a, b)` is the
exact component-wise negation of `compute_force(b, a)` (Newton's third law),
established by direct computation on `compute_force` itself. -/
theorem c5_newtons_third_law (a b : Particle) :
    (Particle.compute_force a b).x = -(Particle.compute_force b a).x ∧
    (Particle.compute_force a b).y = -(Particle.compute_force b a).y := by
  have hlen : (a.pos.sub b.pos).length = (b.pos.sub a.pos).length :=
    length_sub_comm _ _
  rw [compute_force_unfold a b, compute_force_unfold b a, hlen]
  by_cases hn : isNormal (G_CONST / (max ((b.pos.sub a.pos).length) 1 *
      max ((b.pos.sub a.pos).length) 1 * max ((b.pos.sub a.pos).length) 1))
  · rw [if_pos hn, if_pos hn]
    simp only [smul_x, smul_y, sub_x, sub_y]
    constructor <;> ring
  · rw [if_neg hn, if_neg hn]
    simp

/-- C10: the wall checks use strict inequalities, so a particle whose
coordinates lie in the closed box `[0, WIDTH] × [0, HEIGHT]` — including one
sitting exactly on a wall — is left completely unchanged by the wall
handling: the bounce response fires only strictly outside the box. -/
theorem c10_strict_wall_checks (p : Particle)
    (hx0 : 0 ≤ p.pos.x) (hx1 : p.pos.x ≤ (WIDTH : ℝ))
    (hy0 : 0 ≤ p.pos.y) (hy1 : p.pos.y ≤ (HEIGHT : ℝ)) :
    p.walls = p :=
  walls_id p hx0 hx1 hy0 hy1

/-- C10 witness: a particle sitting exactly on the corner `(0, HEIGHT)` with
nonzero velocity is not treated as colliding. -/
theorem c10_strict_wall_checks_witness :
    (Particle.new ⟨0, (HEIGHT : ℝ)⟩ ⟨3, 4⟩).walls
      = Particle.new ⟨0, (HEIGHT : ℝ)⟩ ⟨3, 4⟩ :=
  c10_strict_wall_checks (Particle.new ⟨0, (HEIGHT : ℝ)⟩ ⟨3, 4⟩)
    (by norm_num [Particle.new]) (by norm_num [Particle.new, WIDTH])
    (by norm_num [Particle.new, HEIGHT]) (by norm_num [Particle.new])

/-- C3: for every state with positions in `[0, WIDTH] × [0, HEIGHT]` and
every non-negative `dt`, every particle position after `update` again lies in
`[0, WIDTH] × [0, HEIGHT]`. -/
theorem c3_positions_stay_in_domain (dt : ℝ) (ps : List Particle)
    (_hdt : 0 ≤ dt) (_hin : ∀ p ∈ ps, inBounds p) :
    ∀ p ∈ update dt ps, inBounds p := by
  intro p hp
  rw [update_eq_substep] at hp
  unfold substep at hp
  obtain ⟨q, _, he⟩ := List.mem_map.1 hp
  rw [← he]
  exact walls_inBounds _

/-- C3 witness: the invariant holds for the first particle of the concrete
two-body state after one step. -/
theorem c3_positions_stay_in_domain_witness :
    inBounds (⟨⟨1 / 10, 0⟩, ⟨1 / 10, 0⟩, ⟨1 / 10, 0⟩⟩ : Particle) :=
  c3_positions_stay_in_domain 1 [probeA, probeB] (by norm_num)
    (by
      intro p hp
      simp only [List.mem_cons, List.not_mem_nil, or_false] at hp
      rcases hp with h | h <;> rw [h] <;>
        exact ⟨by norm_num [probeA, probeB, Particle.new],
          by norm_num [probeA, probeB, Particle.new, WIDTH],
          by norm_num [probeA, probeB, Particle.new],
          by norm_num [probeA, probeB, Particle.new, HEIGHT]⟩)
    (⟨⟨1 / 10, 0⟩, ⟨1 / 10, 0⟩, ⟨1 / 10, 0⟩⟩ : Particle)
    (by rw [update_probe]; simp)

/-- C8: for every state satisfying the documented position invariant
(positions inside `[0, WIDTH] × [0, HEIGHT]`), `update 0` leaves every
particle's position and velocity unchanged, even though the accelerations are
reset and recomputed internally. -/
theorem c8_zero_dt_fixes_pos_vel (ps : List Particle)
    (hin : ∀ p ∈ ps, inBounds p) :
    (update 0 ps).map Particle.pos = ps.map Particle.pos ∧
    (update 0 ps).map Particle.vel = ps.map Particle.vel := by
  have hmap : update 0 ps = accumulate ps := by
    rw [update_eq_substep]
    unfold substep
    apply map_eq_self_of_forall
    intro q hq
    rw [combDt_eq, integrate_zero]
    obtain ⟨p, hp, he⟩ := mem_accumulate_pos ps q hq
    obtain ⟨h1, h2, h3, h4⟩ := hin p hp
    exact walls_id q (by rw [he]; exact h1) (by rw [he]; exact h2)
      (by rw [he]; exact h3) (by rw [he]; exact h4)
  rw [hmap]
  exact ⟨accumulate_map_pos ps, accumulate_map_vel ps⟩

/-- C6: wall response after the integration sub-step.  The update pipeline
sends every particle through `walls ∘ integrate`; a particle strictly past a
wall after integration is clamped to that wall with the corresponding
velocity component scaled by `-WALL_BOUNCYNESS` (`-0.25 * v` at the default),
symmetrically for all four walls; and the two axes are handled
independently (`walls` is `bounceAxis` applied to each axis separately). -/
theorem c6_wall_bounce (p : Particle) (dt : ℝ) :
    (∀ (d : ℝ) (qs : List Particle),
      update d qs = (accumulate qs).map fun r => (r.integrate (combDt d)).walls) ∧
    ((p.integrate (combDt dt)).pos.x < 0 →
      (p.integrate (combDt dt)).walls.pos.x = 0 ∧
      (p.integrate (combDt dt)).walls.vel.x
        = -WALL_BOUNCYNESS * (p.integrate (combDt dt)).vel.x) ∧
    ((p.integrate (combDt dt)).pos.x > (WIDTH : ℝ) →
      (p.integrate (combDt dt)).walls.pos.x = (WIDTH : ℝ) ∧
      (p.integrate (combDt dt)).walls.vel.x
        = -WALL_BOUNCYNESS * (p.integrate (combDt dt)).vel.x) ∧
    ((p.integrate (combDt dt)).pos.y < 0 →
      (p.integrate (combDt dt)).walls.pos.y = 0 ∧
      (p.integrate (combDt dt)).walls.vel.y
        = -WALL_BOUNCYNESS * (p.integrate (combDt dt)).vel.y) ∧
    ((p.integrate (combDt dt)).pos.y > (HEIGHT : ℝ) →
      (p.integrate (combDt dt)).walls.pos.y = (HEIGHT : ℝ) ∧
      (p.integrate (combDt dt)).walls.vel.y
        = -WALL_BOUNCYNESS * (p.integrate (combDt dt)).vel.y) ∧
    ((p.integrate (combDt dt)).walls
      = { pos := Vector2f.mk
            (bounceAxis (p.integrate (combDt dt)).pos.x
              (p.integrate (combDt dt)).vel.x (WIDTH : ℝ)).1
            (bounceAxis (p.integrate (combDt dt)).pos.y
              (p.integrate (combDt dt)).vel.y (HEIGHT : ℝ)).1,
          vel := Vector2f.mk
            (bounceAxis (p.integrate (combDt dt)).pos.x
              (p.integrate (combDt dt)).vel.x (WIDTH : ℝ)).2
            (bounceAxis (p.integrate (combDt dt)).pos.y
              (p.integrate (combDt dt)).vel.y (HEIGHT : ℝ)).2,
          acc := (p.integrate (combDt dt)).acc }) := by
  refine ⟨?_, walls_low_x _, walls_high_x _, walls_low_y _, walls_high_y _,
    walls_eq_axes _⟩
  intro d qs
  rw [update_eq_substep]
  rfl

/-- C7: for two particles at the same position (any velocities), the pairwise
force is well defined — the floored distance is exactly `1`, so the magnitude
does not blow up — the force vector is exactly zero, and after the entire
force-accumulation phase both particles carry acceleration exactly zero. -/
theorem c7_coincident_pair (pos v1 v2 : Vector2f) :
    max (((Particle.new pos v2).pos.sub (Particle.new pos v1).pos).length) 1
      = (1 : ℝ) ∧
    Particle.compute_force (Particle.new pos v1) (Particle.new pos v2)
      = Vector2f.new ∧
    ∀ p ∈ accumulate [Particle.new pos v1, Particle.new pos v2],
      p.acc = Vector2f.new := by
  refine ⟨dist_floor_same_pos _ _ rfl, compute_force_same_pos _ _ rfl, ?_⟩
  have hacc : accumulate [Particle.new pos v1, Particle.new pos v2]
      = [Particle.new pos v1, Particle.new pos v2] := by
    unfold accumulate
    have hreset : resetAcc [Particle.new pos v1, Particle.new pos v2]
        = [Particle.new pos v1, Particle.new pos v2] := rfl
    rw [hreset]
    show List.foldl applyPair [Particle.new pos v1, Particle.new pos v2]
      [(0, 0), (1, 0), (1, 1)] = [Particle.new pos v1, Particle.new pos v2]
    rw [List.foldl_cons, applyPair_zero_force _ _
      (compute_force_same_pos _ _ rfl)]
    rw [List.foldl_cons, applyPair_zero_force _ _
      (compute_force_same_pos _ _ rfl)]
    rw [List.foldl_cons, applyPair_zero_force _ _
      (compute_force_same_pos _ _ rfl)]
    rfl
  rw [hacc]
  intro p hp
  simp only [List.mem_cons, List.not_mem_nil, or_false] at hp
  rcases hp with h | h <;> rw [h] <;> rfl

/-- C1 (amended): in the two-body scenario — unit-scale particles at `(0,0)`
and `(100,0)`, zero velocities, `dt = 1`, one iteration, walls far away —
one `update` moves both particles strictly toward each other along the
x-axis (the particle at 0 in `+x`, the other in `-x`, y untouched), and the
displacement magnitude of each is `(G/100³)·100·1² = G/100² = 0.1`: the
code multiplies the `G/d³` magnitude by the full separation vector (length
100), and one semi-implicit Euler step contributes a factor `1`, not `0.5`. -/
theorem c1_two_body_step :
    (update 1 [probeA, probeB]).map Particle.pos
      = [Vector2f.mk (1 / 10) 0, Vector2f.mk (999 / 10) 0] ∧
    probeA.pos.x < 1 / 10 ∧ (999 : ℝ) / 10 < probeB.pos.x ∧
    (1 : ℝ) / 10 - probeA.pos.x = G_CONST / 100 ^ 3 * 100 * 1 ^ 2 ∧
    probeB.pos.x - 999 / 10 = G_CONST / 100 ^ 3 * 100 * 1 ^ 2 := by
  have hA : probeA.pos.x = 0 := rfl
  have hB : probeB.pos.x = 100 := rfl
  refine ⟨by rw [update_probe]; rfl, ?_, ?_, ?_, ?_⟩ <;>
    simp only [hA, hB, G_CONST_eq] <;> norm_num

/-- C1 counterexample: in the same scenario the step does move the particles
toward each other, but each moves by exactly `1/10`, while the claimed
displacement `0.5 · (G/100³) · 1²` is `1/2000`; the difference `199/2000`
is far beyond floating-point tolerance. -/
theorem c1_counterexample :
    (update 1 [probeA, probeB]).map Particle.pos
      = [Vector2f.mk (1 / 10) 0, Vector2f.mk (999 / 10) 0] ∧
    ¬ |((1 : ℝ) / 10 - probeA.pos.x) - 1 / 2 * (G_CONST / 100 ^ 3) * 1 ^ 2|
        ≤ 1 / 100 ∧
    ¬ |(probeB.pos.x - (999 : ℝ) / 10) - 1 / 2 * (G_CONST / 100 ^ 3) * 1 ^ 2|
        ≤ 1 / 100 := by
  have hA : probeA.pos.x = 0 := rfl
  have hB : probeB.pos.x = 100 := rfl
  refine ⟨by rw [update_probe]; rfl, ?_, ?_⟩ <;>
    simp only [hA, hB, G_CONST_eq] <;>
    rw [abs_of_pos (by norm_num)] <;> norm_num

/-- C9: `main` constructs the particle vector from the half-open range
`1 .. PARTICLE_COUNT`, so it creates `PARTICLE_COUNT - 1 = 59` particles,
not `PARTICLE_COUNT`. -/
theorem c9_fifty_nine_particles (gen : ℕ → Particle) :
    (mainParticles gen).length = PARTICLE_COUNT - 1 ∧
    (mainParticles gen).length = 59 ∧
    (mainParticles gen).length ≠ PARTICLE_COUNT := by
  refine ⟨?_, ?_, ?_⟩ <;> simp [mainParticles, rustRange, PARTICLE_COUNT]

/-- C2 (amended): for particles at floored distance `d ≥ 1` whose magnitude
`G / d³` passes the normality guard, the force on `a` is the scalar
`G / d³` times the full separation vector `b.pos - a.pos`; it therefore
points from `a` toward `b` (positive multiple of the separation), but its
Euclidean magnitude is `(G / d³) · d = G / d²`, not `G / d³`. -/
theorem c2_force_direction_and_magnitude (a b : Particle)
    (hd : 1 ≤ (b.pos.sub a.pos).length)
    (hn : isNormal (G_CONST / ((b.pos.sub a.pos).length *
      (b.pos.sub a.pos).length * (b.pos.sub a.pos).length))) :
    Particle.compute_force a b
      = Vector2f.smul (G_CONST / ((b.pos.sub a.pos).length *
          (b.pos.sub a.pos).length * (b.pos.sub a.pos).length))
          (b.pos.sub a.pos) ∧
    0 < G_CONST / ((b.pos.sub a.pos).length *
      (b.pos.sub a.pos).length * (b.pos.sub a.pos).length) ∧
    (Particle.compute_force a b).length
      = G_CONST / ((b.pos.sub a.pos).length *
          (b.pos.sub a.pos).length * (b.pos.sub a.pos).length)
        * (b.pos.sub a.pos).length := by
  have hm0 : 0 < G_CONST / ((b.pos.sub a.pos).length *
      (b.pos.sub a.pos).length * (b.pos.sub a.pos).length) := by
    apply div_pos
    · rw [G_CONST_eq]; norm_num
    · nlinarith
  have heq := compute_force_of_one_le a b hd hn
  refine ⟨heq, hm0, ?_⟩
  rw [heq, length_smul, abs_of_pos hm0]

/-- C2 witness: the amended property instantiated for two particles at
distance 100. -/
theorem c2_force_direction_and_magnitude_witness :
    Particle.compute_force probeA probeB
      = Vector2f.smul (G_CONST / ((probeB.pos.sub probeA.pos).length *
          (probeB.pos.sub probeA.pos).length * (probeB.pos.sub probeA.pos).length))
          (probeB.pos.sub probeA.pos) ∧
    0 < G_CONST / ((probeB.pos.sub probeA.pos).length *
      (probeB.pos.sub probeA.pos).length * (probeB.pos.sub probeA.pos).length) ∧
    (Particle.compute_force probeA probeB).length
      = G_CONST / ((probeB.pos.sub probeA.pos).length *
          (probeB.pos.sub probeA.pos).length * (probeB.pos.sub probeA.pos).length)
        * (probeB.pos.sub probeA.pos).length :=
  c2_force_direction_and_magnitude probeA probeB
    (by rw [len_probeAB]; norm_num)
    (by
      rw [len_probeAB]
      have h : G_CONST / ((100 : ℝ) * 100 * 100) = 1 / 1000 := by
        rw [G_CONST_eq]; norm_num
      rw [h]
      exact isNormal_milli)

/-- C2 counterexample: at distance `d = 100` the force magnitude the code
produces is `1/10 = G / d²`, while the claim demands `G / d³ = 1/1000`; the
two differ by far more than any floating-point tolerance (`99/1000`). -/
theorem c2_counterexample :
    (probeB.pos.sub probeA.pos).length = 100 ∧
    (Particle.compute_force probeA probeB).length = 1 / 10 ∧
    G_CONST / ((100 : ℝ) * 100 * 100) = 1 / 1000 ∧
    ¬ |(Particle.compute_force probeA probeB).length
        - G_CONST / ((100 : ℝ) * 100 * 100)| ≤ 1 / 100 := by
  have h2 : (Particle.compute_force probeA probeB).length = 1 / 10 := by
    rw [compute_force_probeAB, length_smul, length_100_0,
      abs_of_pos (by norm_num : (0 : ℝ) < 1 / 1000)]
    norm_num
  have h3 : G_CONST / ((100 : ℝ) * 100 * 100) = 1 / 1000 := by
    rw [G_CONST_eq]; norm_num
  refine ⟨len_probeAB, h2, h3, ?_⟩
  rw [h2, h3, abs_of_pos (by norm_num : (0 : ℝ) < 1 / 10 - 1 / 1000)]
  norm_num

/-- C4: forces and accumulated accelerations never degenerate.  Every
pairwise force is either a normal magnitude times the separation vector or
the exact zero vector, and for a state with positions inside the domain
every particle's accumulated acceleration after the force phase is bounded
(by `n(n+1)·G·WIDTH` per x component and `n(n+1)·G·HEIGHT` per y component) —
the real-arithmetic reading of "no NaN or infinite component". -/
theorem c4_accumulated_acceleration_finite (ps : List Particle)
    (hin : ∀ p ∈ ps, inBounds p) :
    (∀ a b : Particle,
      (∃ m : ℝ, isNormal m ∧
        Particle.compute_force a b = Vector2f.smul m (b.pos.sub a.pos)) ∨
      Particle.compute_force a b = Vector2f.new) ∧
    ∀ p ∈ accumulate ps,
      |p.acc.x| ≤ (ps.length : ℝ) * (ps.length + 1) * (1000 * 1200) ∧
      |p.acc.y| ≤ (ps.length : ℝ) * (ps.length + 1) * (1000 * 900) := by
  constructor
  · intro a b
    rcases compute_force_structure a b with ⟨m, hn, _, _, he⟩ | he
    · exact Or.inl ⟨m, hn, he⟩
    · exact Or.inr he
  · intro p hp
    unfold accumulate at hp
    obtain ⟨h1, h2⟩ := foldl_acc_bound (pairList ps.length) (resetAcc ps) 0 0
      (resetAcc_inBounds ps hin) (resetAcc_acc_zero ps) p hp
    have hlen := congrArg (Nat.cast : ℕ → ℝ) (pairList_length_two ps.length)
    push_cast at hlen
    constructor
    · have ex : 2 * ((pairList ps.length).length : ℝ) * (1000 * 1200)
          = (ps.length : ℝ) * (ps.length + 1) * (1000 * 1200) := by
        rw [hlen]
      linarith
    · have ex : 2 * ((pairList ps.length).length : ℝ) * (1000 * 900)
          = (ps.length : ℝ) * (ps.length + 1) * (1000 * 900) := by
        rw [hlen]
      linarith

/-- C4 witness: the bound instantiated at a concrete one-particle state. -/
theorem c4_accumulated_acceleration_finite_witness :
    (∀ a b : Particle,
      (∃ m : ℝ, isNormal m ∧
        Particle.compute_force a b = Vector2f.smul m (b.pos.sub a.pos)) ∨
      Particle.compute_force a b = Vector2f.new) ∧
    ∀ p ∈ accumulate [probeA],
      |p.acc.x| ≤ (([probeA] : List Particle).length : ℝ)
          * (([probeA] : List Particle).length + 1) * (1000 * 1200) ∧
      |p.acc.y| ≤ (([probeA] : List Particle).length : ℝ)
          * (([probeA] : List Particle).length + 1) * (1000 * 900) :=
  c4_accumulated_acceleration_finite [probeA]
    (by
      intro p hp
      rw [List.mem_singleton.1 hp]
      exact ⟨le_refl 0, by norm_num [probeA, Particle.new, WIDTH],
        le_refl 0, by norm_num [probeA, Particle.new, HEIGHT]⟩)

/-- C8 witness: the zero-dt step fixes position and velocity of a concrete
one-particle state. -/
theorem c8_zero_dt_fixes_pos_vel_witness :
    (update 0 [probeA]).map Particle.pos = [probeA].map Particle.pos ∧
    (update 0 [probeA]).map Particle.vel = [probeA].map Particle.vel :=
  c8_zero_dt_fixes_pos_vel [probeA]
    (by
      intro p hp
      rw [List.mem_singleton.1 hp]
      exact ⟨le_refl 0, by norm_num [probeA, Particle.new, WIDTH],
        le_refl 0, by norm_num [probeA, Particle.new, HEIGHT]⟩)

end

end NBodies
